import Mathlib

/-!
Shallow embedding of `packages/grafana-data/src/utils/EventBus.ts`.

The source file implements a typed publish/subscribe event bus on top of an
rxjs `Subject`:

* `EventBusSrv` holds one `eventStream : Subject<any>`.
  - `$emit(event)` calls `eventStream.next(event)`.
  - `$on(typeFilter, handler)` subscribes a handler to the stream filtered by
    `event.type === typeFilter.type` and returns the rxjs subscription handle.
  - legacy `emit(name|descriptor, payload)` logs a deprecation line and calls
    `eventStream.next({type, payload})` where `type` is the string argument
    itself, or `descriptor.name` for the descriptor form.
  - legacy `on(name|descriptor, handler)` logs a deprecation line; the string
    form then returns without registering anything (the registration code is
    commented out in the source); the descriptor form subscribes a stream
    handler filtered by `streamEvent.type === descriptor.name` that calls the
    caller's handler with `streamEvent.payload`, and returns `undefined`
    (the subscription handle is discarded).
  - legacy `off` accesses `this.emitter`, a field that is never declared on
    `EventBusSrv` (the class only declares `eventStream`), so at runtime both
    argument forms throw a `TypeError` immediately; `off` contains no
    `console.log` call.
* `EventBusGroup` wraps a bus and lazily creates one composite rxjs
  `Subscription` (`groupSub`); `$on` delegates to the bus and adds the child
  handle to the composite, `unsubscribe()` unsubscribes the composite if it
  exists.

The embedding below models the bus state explicitly.  Handler functions are
identified by the subscription that holds them: an invocation record
`(id, arg)` stands for "the handler of subscription `id` was called with
`arg`".  Payloads are an arbitrary type `α` (they are `any` in the source and
opaque to the bus).  Console output is modelled as a list of the logged
strings.  The rxjs `Subject` delivers a pushed value synchronously to each of
its subscribers in subscription order; a closed (unsubscribed) subscriber is
skipped; this is modelled by `dispatchList`.
-/

/-- An event record on the stream: the source only ever reads `type` and
`payload` of stream events. -/
structure Event (α : Type) where
  type : String
  payload : α
  deriving DecidableEq, Repr

/-- Model of `BusEventType<T>`: an event type descriptor carrying the constant `type`
string used by `$on` for filtering. -/
structure BusEventType where
  type : String
  deriving DecidableEq, Repr

/-- Modelled from the spec: `AppEvent<T>` (declared in
`../types/appEvents`, which is outside the given sources) is the legacy event
descriptor; the spec and the code use only its `name` string field
(`descriptor.name`). -/
structure AppEvent where
  name : String
  deriving DecidableEq, Repr

/-- What a handler is called with: a typed `$on` handler receives the whole
stream event; a legacy descriptor `on` handler receives `streamEvent.payload`. -/
inductive HandlerArg (α : Type) where
  | event (e : Event α)
  | payload (p : α)
  deriving DecidableEq, Repr

/-- One live subscription held by the shared stream.  `filterType` is the
string tag its filter compares against `event.type`; `legacy` is true for
subscriptions made by the legacy descriptor `on` (whose handler receives the
payload only, and whose filter logs "got event"); `closed` is true once the
subscription has been unsubscribed (rxjs skips closed subscribers). -/
structure Subscriber where
  id : Nat
  filterType : String
  legacy : Bool
  closed : Bool
  deriving DecidableEq, Repr

/-- The state of one `EventBusSrv`: the subscriber list of the shared
`eventStream` in subscription order, the next fresh subscription id, the
history of values pushed onto the stream, and the console log. -/
structure BusState (α : Type) where
  subs : List Subscriber
  nextId : Nat
  stream : List (Event α)
  log : List String
  deriving DecidableEq, Repr

/-- Model of `new EventBusSrv()`: a fresh `Subject`, nothing subscribed, nothing
pushed, nothing logged. -/
def initState (α : Type) : BusState α :=
  ⟨[], 0, [], []⟩

/-- An invocation record: subscription `id`'s handler called with `arg`. -/
abbrev Invocation (α : Type) := Nat × HandlerArg α

/-- The argument a subscription's handler receives for a stream event:
legacy descriptor handlers are wrapped as
`next: streamEvent => handler(streamEvent.payload)`, typed handlers receive
the event itself. -/
def subArg (sub : Subscriber) (e : Event α) : HandlerArg α :=
  if sub.legacy then .payload e.payload else .event e

/-- Synchronous dispatch of one pushed value to the subscriber list, in
subscription order: each open subscription whose filter tag equals the
event's `type` has its handler invoked once with `subArg`. -/
def dispatchList : List Subscriber → Event α → List (Invocation α)
  | [], _ => []
  | sub :: rest, e =>
    if sub.closed then dispatchList rest e
    else if sub.filterType = e.type then (sub.id, subArg sub e) :: dispatchList rest e
    else dispatchList rest e

/-- The console lines produced while a value traverses the subscriber list:
the legacy descriptor `on` filter starts with `console.log('got event', event)`
before testing the tag, so each open legacy subscription logs once per pushed
value. -/
def dispatchLogs : List Subscriber → List String
  | [] => []
  | sub :: rest =>
    if ¬sub.closed ∧ sub.legacy then "got event" :: dispatchLogs rest
    else dispatchLogs rest

/-- Model of `eventStream.next(e)`: record the pushed value, produce the filter logs,
and synchronously invoke the matching handlers. -/
def streamNext (s : BusState α) (e : Event α) : BusState α × List (Invocation α) :=
  ({ s with stream := s.stream ++ [e], log := s.log ++ dispatchLogs s.subs },
   dispatchList s.subs e)

/-- Append one console line. -/
def pushLog (s : BusState α) (msg : String) : BusState α :=
  { s with log := s.log ++ [msg] }

namespace EventBusSrv

/-- Model of `$emit(event)`: push the event onto the shared stream. -/
def «$emit» (s : BusState α) (event : Event α) : BusState α × List (Invocation α) :=
  streamNext s event

/-- Model of `$on(typeFilter, handler)`: subscribe to the stream filtered by
`event.type === typeFilter.type`; the returned `Unsubscribable` handle is the
fresh subscription id. -/
def «$on» (s : BusState α) (typeFilter : BusEventType) : BusState α × Nat :=
  ({ s with
      subs := s.subs ++ [⟨s.nextId, typeFilter.type, false, false⟩]
      nextId := s.nextId + 1 },
   s.nextId)

end EventBusSrv

/-- Model of `unsubscribe()` on the handle returned by `$on`: the rxjs subscriber is
closed (and thereafter skipped by dispatch); closing an already closed
subscriber does nothing. -/
def unsubscribeSub (s : BusState α) (id : Nat) : BusState α :=
  { s with
      subs := s.subs.map fun sub =>
        if sub.id = id then { sub with closed := true } else sub }

/-- The deprecation line logged by legacy `emit`. -/
def depEmitMsg : String := "Deprecated emitter function used (emit), use $emit"

/-- The deprecation line logged by legacy `on`. -/
def depOnMsg : String := "Deprecated emitter function used (on), use $on"

namespace EventBusSrv

/-- Legacy `emit(name, payload)` with a string first argument: log the
deprecation line, then `eventStream.next({type: name, payload})`. -/
def emitStr (s : BusState α) (name : String) (payload : α) :
    BusState α × List (Invocation α) :=
  streamNext (pushLog s depEmitMsg) ⟨name, payload⟩

/-- Legacy `emit(descriptor, payload)` with an `AppEvent` first argument: log
the deprecation line, then `eventStream.next({type: event.name, payload})` —
note the source reads the descriptor's `name` field here. -/
def emitDesc (s : BusState α) (event : AppEvent) (payload : α) :
    BusState α × List (Invocation α) :=
  streamNext (pushLog s depEmitMsg) ⟨event.name, payload⟩

/-- Legacy `on(name, handler, scope?)` with a string first argument: log the
deprecation line, then return — the registration code is commented out in the
source, so nothing is subscribed and the handler is dropped. -/
def onStr (s : BusState α) (_name : String) : BusState α :=
  pushLog s depOnMsg

/-- Legacy `on(descriptor, handler, scope?)` with an `AppEvent` first
argument: log the deprecation line, then subscribe a handler to the stream
filtered by `streamEvent.type === event.name`, with the caller's handler
invoked on `streamEvent.payload`.  The rxjs subscription handle is discarded:
the JS method returns `undefined`, so the Lean model returns only the new bus
state. -/
def onDesc (s : BusState α) (event : AppEvent) : BusState α :=
  let s := pushLog s depOnMsg
  { s with
      subs := s.subs ++ [⟨s.nextId, event.name, true, false⟩]
      nextId := s.nextId + 1 }

/-- Legacy `off(name, handler)` with a string first argument: the body runs
`this.emitter.off(event, handler)`, but `EventBusSrv` declares no `emitter`
field, so `this.emitter` is `undefined` and the property access throws a
`TypeError` before any other effect; `none` models the thrown call (no state
change, no console output reaches the log). -/
def offStr (_s : BusState α) (_name : String) : Option (BusState α) :=
  none

/-- Legacy `off(descriptor, handler)` with an `AppEvent` first argument: the
body runs `this.emitter.off(event.name, handler)` on the same missing
`emitter` field, so it throws a `TypeError` exactly like the string form. -/
def offDesc (_s : BusState α) (_event : AppEvent) : Option (BusState α) :=
  none

end EventBusSrv

/-- The lazily created composite rxjs `Subscription` of an `EventBusGroup`:
the child subscription ids added so far and whether the composite itself has
been unsubscribed. -/
structure GroupSub where
  childIds : List Nat
  closed : Bool
  deriving DecidableEq, Repr

/-- Model of `EventBusGroup`: `groupSub` is `undefined` until the first `$on` through
the group creates it.  The wrapped bus is passed explicitly as a `BusState`. -/
structure EventBusGroup where
  groupSub : Option GroupSub
  deriving DecidableEq, Repr

namespace EventBusGroup

/-- Model of `new EventBusGroup(bus)`: no composite subscription yet. -/
def mk' : EventBusGroup := ⟨none⟩

/-- Model of `EventBusGroup.$emit(event)`: delegates directly to the wrapped bus. -/
def «$emit» (_g : EventBusGroup) (s : BusState α) (event : Event α) :
    BusState α × List (Invocation α) :=
  EventBusSrv.«$emit» s event

/-- Model of `addToGroupSub(childSub)`: create the composite `Subscription` if absent,
then `groupSub.add(childSub)`.  rxjs `Subscription.add` on an already
unsubscribed composite immediately unsubscribes the child instead of
retaining it; otherwise the child is retained.  Returns the updated group,
the updated bus, and the child handle (which `add` returns unchanged). -/
def addToGroupSub (g : EventBusGroup) (s : BusState α) (childSub : Nat) :
    EventBusGroup × BusState α × Nat :=
  match g.groupSub with
  | none => (⟨some ⟨[childSub], false⟩⟩, s, childSub)
  | some gs =>
    if gs.closed then (g, unsubscribeSub s childSub, childSub)
    else (⟨some ⟨gs.childIds ++ [childSub], gs.closed⟩⟩, s, childSub)

/-- Model of `EventBusGroup.$on(typeFilter, handler)`: delegate to the bus's `$on`,
register the resulting handle in the composite, and return it. -/
def «$on» (g : EventBusGroup) (s : BusState α) (typeFilter : BusEventType) :
    EventBusGroup × BusState α × Nat :=
  let r := EventBusSrv.«$on» s typeFilter
  addToGroupSub g r.1 r.2

/-- Model of `EventBusGroup.unsubscribe()`: if the composite exists, unsubscribe it.
rxjs `Subscription.unsubscribe` on an already closed composite returns
immediately; otherwise it closes the composite and unsubscribes every child. -/
def unsubscribe (g : EventBusGroup) (s : BusState α) :
    EventBusGroup × BusState α :=
  match g.groupSub with
  | none => (g, s)
  | some gs =>
    if gs.closed then (g, s)
    else (⟨some ⟨gs.childIds, true⟩⟩, gs.childIds.foldl unsubscribeSub s)

/-- The child subscription ids currently retained by the group's composite. -/
def children (g : EventBusGroup) : List Nat :=
  match g.groupSub with
  | none => []
  | some gs => gs.childIds

/-- Whether the group's composite subscription is still open (or was never
created). -/
def isOpen (g : EventBusGroup) : Bool :=
  match g.groupSub with
  | none => true
  | some gs => !gs.closed

end EventBusGroup

/-!
Traces of bus operations.

The temporal claims quantify over sequences of bus API calls.  `Op` is one
call on an `EventBusSrv` (group calls delegate to these, and legacy `off`
throws before touching the state, so neither adds a distinct state
transition). -/

/-- One call on the bus API. -/
inductive Op (α : Type) where
  | emitT (e : Event α)
  | onT (typeFilter : BusEventType)
  | unsub (id : Nat)
  | emitStr (name : String) (payload : α)
  | emitDesc (event : AppEvent) (payload : α)
  | onStr (name : String)
  | onDesc (event : AppEvent)
  deriving DecidableEq, Repr

/-- Execute one call: the next bus state and the handler invocations the call
performs (only emissions invoke handlers). -/
def step (s : BusState α) : Op α → BusState α × List (Invocation α)
  | .emitT e => EventBusSrv.«$emit» s e
  | .onT t => ((EventBusSrv.«$on» s t).1, [])
  | .unsub id => (unsubscribeSub s id, [])
  | .emitStr n p => EventBusSrv.emitStr s n p
  | .emitDesc d p => EventBusSrv.emitDesc s d p
  | .onStr n => (EventBusSrv.onStr s n, [])
  | .onDesc d => (EventBusSrv.onDesc s d, [])

/-- Run a sequence of calls from a state. -/
def runState (s : BusState α) (ops : List (Op α)) : BusState α :=
  ops.foldl (fun s op => (step s op).1) s

/-- The bus state just before the `n`-th call of a trace run from a fresh
bus. -/
def stateAt (ops : List (Op α)) (n : Nat) : BusState α :=
  runState (initState α) (ops.take n)

/-- The handler invocations performed by the `j`-th call of a trace run from
a fresh bus (empty if the trace is shorter). -/
def invsAt (ops : List (Op α)) (j : Nat) : List (Invocation α) :=
  match ops[j]? with
  | none => []
  | some op => (step (stateAt ops j) op).2

/-- The per-call invocation lists of a whole trace, in order. -/
def runInvs (s : BusState α) : List (Op α) → List (List (Invocation α))
  | [] => []
  | op :: rest => (step s op).2 :: runInvs (step s op).1 rest

/-- Whether a call registers a new subscription on the stream (`$on`, or
legacy `on` with a descriptor). -/
def isOnOp : Op α → Bool
  | .onT _ => true
  | .onDesc _ => true
  | _ => false

/-- Predicate `regOp o`: true when `o` holds a subscribing call. -/
def regOp : Option (Op α) → Bool
  | none => false
  | some op => isOnOp op

/-- The `i`-th call of the trace registers the subscription with id `id`
(ids are handed out as the current `nextId`). -/
def registersAt (ops : List (Op α)) (i : Nat) (id : Nat) : Prop :=
  regOp ops[i]? = true ∧ (stateAt ops i).nextId = id

/-- Well-formedness of a bus state: subscription ids are pairwise distinct
and below `nextId`.  This holds for the fresh bus and is preserved by every
call. -/
def WF (s : BusState α) : Prop :=
  (s.subs.map Subscriber.id).Nodup ∧ ∀ sub ∈ s.subs, sub.id < s.nextId

instance (s : BusState α) : Decidable (WF s) := by
  unfold WF; infer_instance

/-!
Shared lemmas about dispatch and the state operations.
-/

theorem dispatchList_append (l₁ l₂ : List Subscriber) (e : Event α) :
    dispatchList (l₁ ++ l₂) e = dispatchList l₁ e ++ dispatchList l₂ e := by
  induction l₁ with
  | nil => rfl
  | cons sub rest ih =>
    simp only [List.cons_append, dispatchList]
    by_cases hc : sub.closed <;> by_cases hf : sub.filterType = e.type <;>
      simp [hc, hf, ih]

theorem dispatchList_eq_filter_map (l : List Subscriber) (e : Event α) :
    dispatchList l e
      = (l.filter fun sub => !sub.closed && sub.filterType == e.type).map
          fun sub => ((sub.id, subArg sub e) : Invocation α) := by
  induction l with
  | nil => rfl
  | cons sub rest ih =>
    simp only [dispatchList, List.filter_cons]
    by_cases hc : sub.closed <;> by_cases hf : sub.filterType = e.type <;>
      simp [hc, hf, ih]

theorem mem_dispatchList {l : List Subscriber} {e : Event α} {id : Nat}
    {arg : HandlerArg α} (h : (id, arg) ∈ dispatchList l e) :
    ∃ sub, sub ∈ l ∧ sub.id = id ∧ sub.closed = false ∧
      sub.filterType = e.type ∧ arg = subArg sub e := by
  rw [dispatchList_eq_filter_map] at h
  obtain ⟨sub, hsub, heq⟩ := List.mem_map.mp h
  obtain ⟨hmem, hcond⟩ := List.mem_filter.mp hsub
  rw [Bool.and_eq_true, Bool.not_eq_true', beq_iff_eq] at hcond
  obtain ⟨h1, h2⟩ := Prod.mk.injEq .. ▸ heq
  exact ⟨sub, hmem, h1, hcond.1, hcond.2, h2.symm⟩


/-- Claim C3: unsubscribing is idempotent and never an error.  For every
handle returned by `$on`, calling its `unsubscribe()` a second time behaves
exactly as the first call alone (a no-op); calling
`EventBusGroup.unsubscribe()` twice leaves the group/bus pair exactly where
the first call left it; calling it on a group to which no subscription was
ever added leaves both group and bus unchanged.  All three operations are
total functions in the model (they cannot throw). -/
theorem unsubscribe_idempotent (s : BusState α) (id : Nat) (g : EventBusGroup) :
    unsubscribeSub (unsubscribeSub s id) id = unsubscribeSub s id ∧
    EventBusGroup.unsubscribe (EventBusGroup.unsubscribe g s).1
        (EventBusGroup.unsubscribe g s).2
      = EventBusGroup.unsubscribe g s ∧
    EventBusGroup.unsubscribe ⟨none⟩ s = (⟨none⟩, s) := by
  refine ⟨?_, ?_, rfl⟩
  · simp only [unsubscribeSub, List.map_map]
    congr 1
    refine List.map_congr_left fun sub _ => ?_
    by_cases h : sub.id = id <;> simp [Function.comp, h]
  · rcases g with ⟨_ | ⟨ids, closed⟩⟩
    · rfl
    · cases closed <;> simp [EventBusGroup.unsubscribe]

/-- Claim C5: the legacy `emit` with a string name pushes the record
`{type: name, payload}` onto the shared stream, and with an event descriptor
it pushes `{type: descriptor.name, payload}` — reading the descriptor's
`name` field.  In both forms the record is built inline and handed straight
to `eventStream.next` (the typed `$emit` wrapper is not involved), so the
dispatched invocations are exactly those of the synthesized record. -/
theorem legacy_emit_record (s : BusState α) (name : String) (event : AppEvent)
    (payload : α) :
    (EventBusSrv.emitStr s name payload).1.stream = s.stream ++ [⟨name, payload⟩] ∧
    (EventBusSrv.emitStr s name payload).2 = dispatchList s.subs ⟨name, payload⟩ ∧
    (EventBusSrv.emitDesc s event payload).1.stream
      = s.stream ++ [⟨event.name, payload⟩] ∧
    (EventBusSrv.emitDesc s event payload).2
      = dispatchList s.subs ⟨event.name, payload⟩ :=
  ⟨rfl, rfl, rfl, rfl⟩

/-- Claim C6: the legacy `on` with a string name performs no registration and
returns (it is a total no-op apart from the deprecation log line): the
subscriber list and the id counter are untouched, so no handler was
registered and every later emission — `$emit` or a legacy `emit` with the
same name — dispatches exactly as if the call had never happened. -/
theorem legacy_on_string_noop (s : BusState α) (name : String) :
    (EventBusSrv.onStr s name).subs = s.subs ∧
    (EventBusSrv.onStr s name).nextId = s.nextId ∧
    (∀ e : Event α, (EventBusSrv.«$emit» (EventBusSrv.onStr s name) e).2
      = (EventBusSrv.«$emit» s e).2) ∧
    (∀ n : String, ∀ p : α,
      (EventBusSrv.emitStr (EventBusSrv.onStr s name) n p).2
        = (EventBusSrv.emitStr s n p).2) :=
  ⟨rfl, rfl, fun _ => rfl, fun _ _ => rfl⟩

/-- Claim C7 (code evaluated at the failing input): both argument forms of
the legacy `off` throw.  The body reads `this.emitter`, but `EventBusSrv`
declares no `emitter` field — only `eventStream` — so the property access
`this.emitter.off(...)` raises a `TypeError` on every call, before removing
anything and before any logging.  `none` is the model of the thrown call. -/
theorem legacy_off_always_throws (s : BusState α) (name : String)
    (event : AppEvent) :
    EventBusSrv.offStr s name = none ∧ EventBusSrv.offDesc s event = none :=
  ⟨rfl, rfl⟩

/-- Claim C10: the legacy `on` with an event descriptor registers a live
subscription filtered on `descriptor.name` whose handler receives the
event's payload — a subsequent matching emission invokes it — but the rxjs
subscription handle is discarded: the method falls off its end and returns
`undefined` (in the model, `onDesc` returns only the new bus state, exposing
no handle), so the caller has no way to deactivate this registration through
the return value. -/
theorem legacy_on_descriptor_subscribes (s : BusState α) (event : AppEvent)
    (p : α) :
    (EventBusSrv.onDesc s event).subs
      = s.subs ++ [⟨s.nextId, event.name, true, false⟩] ∧
    (EventBusSrv.onDesc s event).nextId = s.nextId + 1 ∧
    (s.nextId, HandlerArg.payload p)
      ∈ (EventBusSrv.«$emit» (EventBusSrv.onDesc s event) ⟨event.name, p⟩).2 := by
  refine ⟨rfl, rfl, ?_⟩
  show (s.nextId, HandlerArg.payload p)
      ∈ dispatchList (s.subs ++ [⟨s.nextId, event.name, true, false⟩]) ⟨event.name, p⟩
  rw [dispatchList_append]
  simp [dispatchList, subArg]

/-- Claim C8, counterexample: not every legacy operation produces a
deprecation notice.  The concrete call `off('foo', handler)` on a fresh bus
contains no logging statement at all and throws (missing `emitter` field)
before producing any console output, so no deprecation notice reaches the
diagnostic channel for this call. -/
theorem legacy_off_produces_no_notice :
    EventBusSrv.offStr (initState Nat) "foo" = none := rfl

/-- Claim C8 as amended: every call to legacy `emit` (string or descriptor
form) and legacy `on` (string or descriptor form) appends the corresponding
deprecation notice to the console log, in addition to its normal behaviour;
legacy `off` (either form) produces no deprecation notice — it throws on the
missing `emitter` field before any output, and its body contains no logging
statement. -/
theorem legacy_deprecation_notices (s : BusState α) (name : String)
    (event : AppEvent) (p : α) :
    (EventBusSrv.emitStr s name p).1.log
      = s.log ++ depEmitMsg :: dispatchLogs s.subs ∧
    (EventBusSrv.emitDesc s event p).1.log
      = s.log ++ depEmitMsg :: dispatchLogs s.subs ∧
    (EventBusSrv.onStr s name).log = s.log ++ [depOnMsg] ∧
    (EventBusSrv.onDesc s event).log = s.log ++ [depOnMsg] ∧
    EventBusSrv.offStr s name = none ∧
    EventBusSrv.offDesc s event = none := by
  refine ⟨?_, ?_, rfl, rfl, rfl, rfl⟩ <;>
    simp [EventBusSrv.emitStr, EventBusSrv.emitDesc, streamNext, pushLog]

/-- Claim C9, counterexample: a legacy `emit('foo', {x:1})` (payload modelled
as `1 : Nat`) followed by a typed `$on` subscription on tag `'foo'` delivers
nothing to that subscription: the emission happened before the subscription
existed and the stream does not replay, so both steps of the trace perform
zero handler invocations — the subscription never receives `{x:1}`. -/
theorem emit_then_subscribe_delivers_nothing :
    runInvs (initState Nat) [Op.emitStr "foo" 1, Op.onT ⟨"foo"⟩] = [[], []] := rfl

/-- Claim C9 as amended: with the two calls in the delivering order — a typed
`$on` subscription on tag `'foo'` made first, then legacy
`emit('foo', {x:1})` — the subscription's handler is invoked with the
synthesized event record whose payload is `{x:1}` (the subscription made
after the emission, as in the original claim, receives nothing). -/
theorem subscribe_then_legacy_emit_delivers (α : Type) (p : α) :
    runInvs (initState α) [Op.onT ⟨"foo"⟩, Op.emitStr "foo" p]
      = [[], [(0, HandlerArg.event ⟨"foo", p⟩)]] := rfl

theorem count_eq_one_of_nodup_mem {β : Type} [BEq β] [LawfulBEq β]
    {l : List β} {a : β} (hn : l.Nodup) (ha : a ∈ l) : l.count a = 1 := by
  induction l with
  | nil => cases ha
  | cons b bs ih =>
    rw [List.count_cons]
    rcases List.mem_cons.mp ha with rfl | hmem
    · have h0 : bs.count a = 0 :=
        List.count_eq_zero.mpr (List.nodup_cons.mp hn).1
      simp [h0]
    · have hb : b ∉ bs := (List.nodup_cons.mp hn).1
      have hne : b ≠ a := fun h => hb (h ▸ hmem)
      rw [ih (List.nodup_cons.mp hn).2 hmem]
      simp [hne]

/-- Claim C1: for every event `e`, `$emit(e)` synchronously invokes the
handlers of exactly the currently open subscriptions whose registered tag
equals `e.type`, in registration order (the subscriber list order), each
exactly once, passing `e` (`subArg` is the whole event for `$on`
subscriptions; for a legacy descriptor subscription the shim hands the
handler `e.payload`); subscriptions registered for a different tag are never
invoked for `e`.  `WF` (distinct subscription ids) holds for every state the
API can actually build. -/
theorem emit_dispatch_exact {α : Type} [DecidableEq α] (s : BusState α)
    (e : Event α) (hwf : WF s) :
    (EventBusSrv.«$emit» s e).2
      = (s.subs.filter fun sub => !sub.closed && sub.filterType == e.type).map
          (fun sub => ((sub.id, subArg sub e) : Invocation α)) ∧
    (∀ sub ∈ s.subs, sub.closed = false → sub.filterType = e.type →
      (EventBusSrv.«$emit» s e).2.count (sub.id, subArg sub e) = 1) ∧
    (∀ sub ∈ s.subs, sub.filterType ≠ e.type →
      ∀ arg : HandlerArg α, (sub.id, arg) ∉ (EventBusSrv.«$emit» s e).2) := by
  have h1 : (EventBusSrv.«$emit» s e).2
      = (s.subs.filter fun sub => !sub.closed && sub.filterType == e.type).map
          (fun sub => ((sub.id, subArg sub e) : Invocation α)) :=
    dispatchList_eq_filter_map s.subs e
  have hids : ((s.subs.filter fun sub =>
      !sub.closed && sub.filterType == e.type).map Subscriber.id).Nodup :=
    (List.Sublist.map Subscriber.id (List.filter_sublist s.subs)).nodup hwf.1
  have hM : ((s.subs.filter fun sub =>
        !sub.closed && sub.filterType == e.type).map
          (fun sub => ((sub.id, subArg sub e) : Invocation α))).Nodup := by
    refine List.Nodup.of_map Prod.fst ?_
    rw [List.map_map]
    exact hids
  refine ⟨h1, ?_, ?_⟩
  · intro sub hmem hclosed hfilter
    rw [h1]
    have hsubL : sub ∈ s.subs.filter fun sub =>
        !sub.closed && sub.filterType == e.type :=
      List.mem_filter.mpr ⟨hmem, by simp [hclosed, hfilter]⟩
    exact count_eq_one_of_nodup_mem hM (List.mem_map_of_mem _ hsubL)
  · intro sub hmem hne arg hin
    rw [h1] at hin
    obtain ⟨sub', hsub', heq⟩ := List.mem_map.mp hin
    obtain ⟨hmem', hcond'⟩ := List.mem_filter.mp hsub'
    have hid : Subscriber.id sub' = Subscriber.id sub :=
      (Prod.mk.injEq .. ▸ heq).1
    have : sub' = sub := List.inj_on_of_nodup_map hwf.1 hmem' hmem hid
    rw [Bool.and_eq_true, beq_iff_eq] at hcond'
    exact hne (this ▸ hcond'.2)

/-- Witness for C1: a concrete bus with an open subscription on tag "A", a
closed one on "A", and one on "B"; emitting `{type:"A", payload:5}` invokes
exactly the open "A" subscription, once, with the event. -/
theorem emit_dispatch_exact_witness :
    WF (⟨[⟨0, "A", false, false⟩, ⟨1, "A", false, true⟩, ⟨2, "B", false, false⟩],
        3, [], []⟩ : BusState Nat) ∧
    (EventBusSrv.«$emit»
        (⟨[⟨0, "A", false, false⟩, ⟨1, "A", false, true⟩, ⟨2, "B", false, false⟩],
          3, [], []⟩ : BusState Nat) ⟨"A", 5⟩).2
      = [(0, HandlerArg.event ⟨"A", 5⟩)] := by
  refine ⟨by decide, ?_⟩
  rw [(emit_dispatch_exact
    (⟨[⟨0, "A", false, false⟩, ⟨1, "A", false, true⟩, ⟨2, "B", false, false⟩],
      3, [], []⟩ : BusState Nat) ⟨"A", 5⟩ (by decide)).1]
  rfl

theorem foldl_unsubscribeSub_subs (ids : List Nat) (s : BusState α) :
    (ids.foldl unsubscribeSub s).subs
      = s.subs.map fun sub =>
          if sub.id ∈ ids then { sub with closed := true } else sub := by
  induction ids generalizing s with
  | nil => simp
  | cons id rest ih =>
    rw [List.foldl_cons, ih]
    show (unsubscribeSub s id).subs.map _ = _
    rw [unsubscribeSub, List.map_map]
    refine List.map_congr_left fun sub _ => ?_
    by_cases h1 : sub.id = id <;> by_cases h2 : sub.id ∈ rest <;>
      simp [Function.comp, h1, h2, List.mem_cons]

theorem foldl_unsubscribeSub_nextId (ids : List Nat) (s : BusState α) :
    (ids.foldl unsubscribeSub s).nextId = s.nextId := by
  induction ids generalizing s with
  | nil => rfl
  | cons id rest ih => rw [List.foldl_cons, ih]; rfl

theorem dispatchList_filter_not_mem (ids : List Nat) (l : List Subscriber)
    (e : Event α) :
    (dispatchList
        (l.map fun sub => if sub.id ∈ ids then { sub with closed := true } else sub)
        e).filter (fun inv => !(decide (inv.1 ∈ ids)))
      = (dispatchList l e).filter (fun inv => !(decide (inv.1 ∈ ids))) := by
  induction l with
  | nil => rfl
  | cons sub rest ih =>
    simp only [List.map_cons, dispatchList]
    by_cases hm : sub.id ∈ ids <;>
      by_cases hcl : sub.closed <;> by_cases hf : sub.filterType = e.type <;>
        simp [hm, hcl, hf, ih, List.filter_cons]

/-- Claim C4: when the group's composite subscription is still open (or was
never created), `EventBusGroup.unsubscribe()` closes exactly the
subscriptions whose handles were added through this group (`g.children`) and
leaves every other subscription — made directly on the bus or through any
other group — byte-for-byte unchanged; consequently any later emission
delivers to the non-member subscriptions exactly what it would have
delivered before the group teardown. -/
theorem group_unsubscribe_frame (g : EventBusGroup) (s : BusState α)
    (hopen : g.isOpen = true) :
    (EventBusGroup.unsubscribe g s).2.subs
      = s.subs.map (fun sub =>
          if sub.id ∈ g.children then { sub with closed := true } else sub) ∧
    (EventBusGroup.unsubscribe g s).2.nextId = s.nextId ∧
    ∀ e : Event α,
      (dispatchList (EventBusGroup.unsubscribe g s).2.subs e).filter
          (fun inv => !(decide (inv.1 ∈ g.children)))
        = (dispatchList s.subs e).filter
            (fun inv => !(decide (inv.1 ∈ g.children))) := by
  rcases g with ⟨_ | ⟨ids, closed⟩⟩
  · refine ⟨?_, rfl, fun e => rfl⟩
    show s.subs = s.subs.map _
    simp [EventBusGroup.children]
  · cases closed
    · refine ⟨?_, ?_, ?_⟩
      · show (ids.foldl unsubscribeSub s).subs = _
        rw [foldl_unsubscribeSub_subs]
        rfl
      · exact foldl_unsubscribeSub_nextId ids s
      · intro e
        show (dispatchList (ids.foldl unsubscribeSub s).subs e).filter _ = _
        rw [foldl_unsubscribeSub_subs]
        exact dispatchList_filter_not_mem ids s.subs e
    · simp [EventBusGroup.isOpen] at hopen

/-- Witness for C4: a bus with three open subscriptions on tag "A" (ids 0, 1,
2) and a group owning only id 1: the group teardown closes id 1 and leaves
ids 0 and 2 delivering as before. -/
theorem group_unsubscribe_frame_witness :
    (⟨some ⟨[1], false⟩⟩ : EventBusGroup).isOpen = true ∧
    (EventBusGroup.unsubscribe (⟨some ⟨[1], false⟩⟩ : EventBusGroup)
        (⟨[⟨0, "A", false, false⟩, ⟨1, "A", false, false⟩, ⟨2, "A", false, false⟩],
          3, [], []⟩ : BusState Nat)).2.subs
      = [⟨0, "A", false, false⟩, ⟨1, "A", false, true⟩, ⟨2, "A", false, false⟩] := by
  refine ⟨rfl, ?_⟩
  rw [(group_unsubscribe_frame (⟨some ⟨[1], false⟩⟩ : EventBusGroup)
    (⟨[⟨0, "A", false, false⟩, ⟨1, "A", false, false⟩, ⟨2, "A", false, false⟩],
      3, [], []⟩ : BusState Nat) rfl).1]
  rfl

theorem runState_append (s : BusState α) (l₁ l₂ : List (Op α)) :
    runState s (l₁ ++ l₂) = runState (runState s l₁) l₂ :=
  List.foldl_append _ _ _ _

theorem runState_nextId_le (s : BusState α) (ops : List (Op α)) :
    s.nextId ≤ (runState s ops).nextId := by
  induction ops generalizing s with
  | nil => exact Nat.le_refl _
  | cons op rest ih =>
    refine Nat.le_trans ?_ (ih (step s op).1)
    cases op <;> first
      | exact Nat.le_succ _
      | exact Nat.le_refl _

theorem stateAt_nextId_mono (ops : List (Op α)) {i j : Nat} (h : i ≤ j) :
    (stateAt ops i).nextId ≤ (stateAt ops j).nextId := by
  unfold stateAt
  rw [show j = i + (j - i) from (Nat.add_sub_cancel' h).symm, List.take_add,
    runState_append]
  exact runState_nextId_le _ _

theorem stateAt_succ_some (ops : List (Op α)) (n : Nat) (op : Op α)
    (hop : ops[n]? = some op) :
    stateAt ops (n + 1) = (step (stateAt ops n) op).1 := by
  unfold stateAt
  rw [List.take_succ, hop, show (some op).toList = [op] from rfl, runState_append]
  rfl

theorem stateAt_succ_none (ops : List (Op α)) (n : Nat) (hop : ops[n]? = none) :
    stateAt ops (n + 1) = stateAt ops n := by
  unfold stateAt
  rw [List.take_succ, hop, show (none : Option (Op α)).toList = [] from rfl,
    runState_append]
  rfl

theorem step_id_lt {s : BusState α} (op : Op α)
    (h : ∀ sub ∈ s.subs, sub.id < s.nextId) :
    ∀ sub ∈ (step s op).1.subs, sub.id < (step s op).1.nextId := by
  cases op with
  | onT t =>
    intro sub hsub
    rcases List.mem_append.mp hsub with hm | hm
    · exact Nat.lt_succ_of_lt (h sub hm)
    · rw [List.mem_singleton.mp hm]
      exact Nat.lt_succ_self _
  | onDesc d =>
    intro sub hsub
    rcases List.mem_append.mp hsub with hm | hm
    · exact Nat.lt_succ_of_lt (h sub hm)
    · rw [List.mem_singleton.mp hm]
      exact Nat.lt_succ_self _
  | unsub id' =>
    intro sub hsub
    obtain ⟨sub₀, h₀, heq⟩ := List.mem_map.mp hsub
    have hid : sub.id = sub₀.id := by
      by_cases hh : sub₀.id = id' <;> simp [← heq, hh]
    rw [hid]
    exact h sub₀ h₀
  | emitT e => exact h
  | emitStr n p => exact h
  | emitDesc d p => exact h
  | onStr n => exact h

theorem stateAt_id_lt (ops : List (Op α)) (n : Nat) :
    ∀ sub ∈ (stateAt ops n).subs, sub.id < (stateAt ops n).nextId := by
  induction n with
  | zero =>
    intro sub hsub
    simp [stateAt, runState, initState] at hsub
  | succ n ih =>
    cases hop : ops[n]? with
    | none => rw [stateAt_succ_none ops n hop]; exact ih
    | some op => rw [stateAt_succ_some ops n op hop]; exact step_id_lt op ih

theorem step_snd_mem {s : BusState α} {op : Op α} {id : Nat}
    {arg : HandlerArg α} (h : (id, arg) ∈ (step s op).2) :
    ∃ sub, sub ∈ s.subs ∧ sub.id = id ∧ sub.closed = false := by
  cases op with
  | emitT e =>
    obtain ⟨sub, h1, h2, h3, _, _⟩ := mem_dispatchList h
    exact ⟨sub, h1, h2, h3⟩
  | emitStr n p =>
    obtain ⟨sub, h1, h2, h3, _, _⟩ := mem_dispatchList h
    exact ⟨sub, h1, h2, h3⟩
  | emitDesc d p =>
    obtain ⟨sub, h1, h2, h3, _, _⟩ := mem_dispatchList h
    exact ⟨sub, h1, h2, h3⟩
  | onT t => cases h
  | unsub id' => cases h
  | onStr n => cases h
  | onDesc d => cases h

theorem subs_origin (ops : List (Op α)) (n : Nat) :
    ∀ sub ∈ (stateAt ops n).subs,
      ∃ i, i < n ∧ registersAt ops i sub.id ∧
        (sub.closed = false →
          ∀ k, i < k → k < n → ops[k]? ≠ some (Op.unsub sub.id)) := by
  induction n with
  | zero =>
    intro sub hsub
    simp [stateAt, runState, initState] at hsub
  | succ n ih =>
    intro sub hsub
    cases hop : ops[n]? with
    | none =>
      rw [stateAt_succ_none ops n hop] at hsub
      obtain ⟨i, hi, hreg, hcl⟩ := ih sub hsub
      refine ⟨i, Nat.lt_succ_of_lt hi, hreg, fun hc k hik hkn => ?_⟩
      rcases Nat.lt_succ_iff_lt_or_eq.mp hkn with hk | rfl
      · exact hcl hc k hik hk
      · rw [hop]; exact fun hcontra => Option.noConfusion hcontra
    | some op =>
      rw [stateAt_succ_some ops n op hop] at hsub
      cases op with
      | emitT e =>
        obtain ⟨i, hi, hreg, hcl⟩ := ih sub hsub
        refine ⟨i, Nat.lt_succ_of_lt hi, hreg, fun hc k hik hkn => ?_⟩
        rcases Nat.lt_succ_iff_lt_or_eq.mp hkn with hk | rfl
        · exact hcl hc k hik hk
        · rw [hop]; intro hcontra; cases Option.some.inj hcontra
      | emitStr nm p =>
        obtain ⟨i, hi, hreg, hcl⟩ := ih sub hsub
        refine ⟨i, Nat.lt_succ_of_lt hi, hreg, fun hc k hik hkn => ?_⟩
        rcases Nat.lt_succ_iff_lt_or_eq.mp hkn with hk | rfl
        · exact hcl hc k hik hk
        · rw [hop]; intro hcontra; cases Option.some.inj hcontra
      | emitDesc d p =>
        obtain ⟨i, hi, hreg, hcl⟩ := ih sub hsub
        refine ⟨i, Nat.lt_succ_of_lt hi, hreg, fun hc k hik hkn => ?_⟩
        rcases Nat.lt_succ_iff_lt_or_eq.mp hkn with hk | rfl
        · exact hcl hc k hik hk
        · rw [hop]; intro hcontra; cases Option.some.inj hcontra
      | onStr nm =>
        obtain ⟨i, hi, hreg, hcl⟩ := ih sub hsub
        refine ⟨i, Nat.lt_succ_of_lt hi, hreg, fun hc k hik hkn => ?_⟩
        rcases Nat.lt_succ_iff_lt_or_eq.mp hkn with hk | rfl
        · exact hcl hc k hik hk
        · rw [hop]; intro hcontra; cases Option.some.inj hcontra
      | unsub id' =>
        obtain ⟨sub₀, hsub₀, heq⟩ := List.mem_map.mp hsub
        obtain ⟨i, hi, hreg, hcl⟩ := ih sub₀ hsub₀
        have hid : sub.id = sub₀.id := by
          by_cases hh : sub₀.id = id' <;> simp [← heq, hh]
        refine ⟨i, Nat.lt_succ_of_lt hi, hid ▸ hreg, fun hc k hik hkn => ?_⟩
        have hne : sub₀.id ≠ id' := by
          intro hh
          rw [← heq, if_pos hh] at hc
          cases hc
        have hsub_eq : sub = sub₀ := by rw [← heq, if_neg hne]
        rcases Nat.lt_succ_iff_lt_or_eq.mp hkn with hk | rfl
        · rw [hsub_eq]
          exact hcl (hsub_eq ▸ hc) k hik hk
        · rw [hop]
          intro hcontra
          exact hne (hid ▸ (Op.unsub.inj (Option.some.inj hcontra)).symm)
      | onT t =>
        rcases List.mem_append.mp hsub with hm | hm
        · obtain ⟨i, hi, hreg, hcl⟩ := ih sub hm
          refine ⟨i, Nat.lt_succ_of_lt hi, hreg, fun hc k hik hkn => ?_⟩
          rcases Nat.lt_succ_iff_lt_or_eq.mp hkn with hk | rfl
          · exact hcl hc k hik hk
          · rw [hop]; intro hcontra; cases Option.some.inj hcontra
        · rw [List.mem_singleton.mp hm]
          refine ⟨n, Nat.lt_succ_self n, ⟨by rw [hop]; rfl, rfl⟩,
            fun _ k hik hkn => absurd (Nat.lt_of_lt_of_le hik (Nat.le_of_lt_succ hkn)) (Nat.lt_irrefl n)⟩
      | onDesc d =>
        rcases List.mem_append.mp hsub with hm | hm
        · obtain ⟨i, hi, hreg, hcl⟩ := ih sub hm
          refine ⟨i, Nat.lt_succ_of_lt hi, hreg, fun hc k hik hkn => ?_⟩
          rcases Nat.lt_succ_iff_lt_or_eq.mp hkn with hk | rfl
          · exact hcl hc k hik hk
          · rw [hop]; intro hcontra; cases Option.some.inj hcontra
        · rw [List.mem_singleton.mp hm]
          refine ⟨n, Nat.lt_succ_self n, ⟨by rw [hop]; rfl, rfl⟩,
            fun _ k hik hkn => absurd (Nat.lt_of_lt_of_le hik (Nat.le_of_lt_succ hkn)) (Nat.lt_irrefl n)⟩

/-- Claim C2: no replay, and delivery only inside the subscription window.
For every trace of bus calls run from a fresh bus, if the `j`-th call invokes
the handler of subscription `id`, then every call that registers `id` lies
strictly before `j` (a handler never receives an event emitted before its
subscription), and there is a registering call `i < j` for `id` with no
`unsubscribe(id)` call strictly between `i` and `j` (delivery happens only
after subscribing and before unsubscribing). -/
theorem subscription_delivery_window (ops : List (Op α)) (j : Nat) (id : Nat)
    (arg : HandlerArg α) (h : (id, arg) ∈ invsAt ops j) :
    (∀ i, registersAt ops i id → i < j) ∧
    ∃ i, i < j ∧ registersAt ops i id ∧
      ∀ k, i < k → k < j → ops[k]? ≠ some (Op.unsub id) := by
  unfold invsAt at h
  revert h
  cases hop : ops[j]? with
  | none => intro h; cases h
  | some op =>
    intro h
    obtain ⟨sub, hsub, hid, hcl⟩ := step_snd_mem h
    constructor
    · intro i hreg
      by_contra hij
      have hji : j ≤ i := Nat.le_of_not_lt hij
      have h1 : sub.id < (stateAt ops j).nextId := stateAt_id_lt ops j sub hsub
      have h2 : (stateAt ops j).nextId ≤ (stateAt ops i).nextId :=
        stateAt_nextId_mono ops hji
      rw [hreg.2] at h2
      exact Nat.lt_irrefl id (Nat.lt_of_lt_of_le (hid ▸ h1) h2)
    · obtain ⟨i, hi, hreg, hguard⟩ := subs_origin ops j sub hsub
      exact ⟨i, hi, hid ▸ hreg, fun k h1 h2 => (hid ▸ hguard hcl) k h1 h2⟩

/-- Witness for C2: in the trace `[$on "A", $emit {type:"A", payload:5}]` the
second call invokes subscription 0; the theorem places its registration at
step 0 with no unsubscription in between. -/
theorem subscription_delivery_window_witness :
    ((0, HandlerArg.event (⟨"A", 5⟩ : Event Nat))
        ∈ invsAt [Op.onT ⟨"A"⟩, Op.emitT ⟨"A", 5⟩] 1) ∧
    ((∀ i, registersAt [Op.onT ⟨"A"⟩, Op.emitT (⟨"A", 5⟩ : Event Nat)] i 0 → i < 1) ∧
      ∃ i, i < 1 ∧ registersAt [Op.onT ⟨"A"⟩, Op.emitT (⟨"A", 5⟩ : Event Nat)] i 0 ∧
        ∀ k, i < k → k < 1 →
          [Op.onT ⟨"A"⟩, Op.emitT (⟨"A", 5⟩ : Event Nat)][k]? ≠ some (Op.unsub 0)) :=
  ⟨by decide,
   subscription_delivery_window [Op.onT ⟨"A"⟩, Op.emitT (⟨"A", 5⟩ : Event Nat)] 1 0
     (HandlerArg.event ⟨"A", 5⟩) (by decide)⟩
